import Mathlib

/-!
Verification development for the Lucas-Kanade optical-flow / video-stabilization
module (`lucas_kanade.py`).

Modelling conventions:
- an image is a height, a width and a total pixel function `Nat → Nat → ℚ`
  (floating-point arithmetic is idealized as exact rational arithmetic);
- `scipy.signal.convolve2d(..., mode='same', boundary='symm')` is embedded as
  `conv2same`, with the symmetric (edge-repeating, period `2n`) index reflection;
- external library collaborators that are not part of the repository
  (`cv2.resize`, `scipy.interpolate.griddata`, `cv2.cornerHarris`) are taken as
  oracle parameters of the functions that call them, so theorems quantify over
  every behaviour of those collaborators (constrained only by hypotheses that
  state the library contract actually used, e.g. that `cv2.resize` honours the
  requested output size);
- a Python run that raises is modelled by the value `none` of an `Option` result;
- an in-place numpy array update loop is embedded as a fold over the list of
  visited index pairs, each iteration overwriting exactly one cell.
-/

namespace LK


/-- An image: a 2D grid of rational intensities.  The pixel function is total;
only indices below `h` and `w` are meaningful. -/
structure Img where
  h : Nat
  w : Nat
  data : Nat → Nat → ℚ

/-- Default image used for list indexing defaults (never reached on the paths
the theorems talk about). -/
def imgDefault : Img := ⟨0, 0, fun _ _ => 0⟩

/-- Symmetric ("symm") boundary index folding used by
`signal.convolve2d(boundary='symm')`: the input is extended by reflection that
repeats the edge sample, i.e. with period `2*n`. -/
def reflect (n : Nat) (i : Int) : Nat :=
  let j := i.emod (2 * n)
  if j < (n : Int) then j.toNat else (2 * (n : Int) - 1 - j).toNat

/-- `signal.convolve2d(in1=img, in2=ker, mode='same', boundary='symm')` for a
`K × K` kernel: output pixel `(i, j)` is the full convolution sample at offset
`(K-1)/2`, with the input symmetrically extended. -/
def conv2same (K : Nat) (ker : Nat → Nat → ℚ) (img : Img) : Img :=
  ⟨img.h, img.w, fun i j =>
    ∑ k ∈ Finset.range K, ∑ l ∈ Finset.range K,
      ker k l *
        img.data (reflect img.h ((i : Int) + ((K - 1 : Nat) : Int) / 2 - k))
                 (reflect img.w ((j : Int) + ((K - 1 : Nat) : Int) / 2 - l))⟩

/-- The fixed 5×5 binomial smoothing kernel `PYRAMID_FILTER` (1/256 times the
integer matrix literal of the source). -/
def PYRAMID_FILTER : Nat → Nat → ℚ := fun k l =>
  (1 / 256) *
    (([[1, 4, 6, 4, 1],
       [4, 16, 24, 16, 4],
       [6, 24, 36, 24, 6],
       [4, 16, 24, 16, 4],
       [1, 4, 6, 4, 1]].getD k []).getD l 0)

/-- The fixed 3×3 horizontal derivative kernel `X_DERIVATIVE_FILTER`. -/
def X_DERIVATIVE_FILTER : Nat → Nat → ℚ := fun k l =>
  (([[1, 0, -1],
     [2, 0, -2],
     [1, 0, -1]].getD k []).getD l 0)

/-- `Y_DERIVATIVE_FILTER = X_DERIVATIVE_FILTER.transpose()`. -/
def Y_DERIVATIVE_FILTER : Nat → Nat → ℚ := fun k l => X_DERIVATIVE_FILTER l k

/-- Decimation `img[0:h:2, 0:w:2]`: keep every second row and column starting
at index 0; the result has the ceiling of half the input dimensions. -/
def decimate2 (img : Img) : Img :=
  ⟨(img.h + 1) / 2, (img.w + 1) / 2, fun a b => img.data (2 * a) (2 * b)⟩

/-- One pyramid level step of `build_pyramid`: convolve with `PYRAMID_FILTER`
(`mode='same'`, `boundary='symm'`) then decimate by 2 in both axes. -/
def pyrNext (img : Img) : Img := decimate2 (conv2same 5 PYRAMID_FILTER img)

/-- The pyramid list built by the loop of `build_pyramid`: entry `k` is the
input image blurred-and-decimated `k` times. -/
def pyramidList (img : Img) (n : Nat) : List Img :=
  (List.range (n + 1)).map (fun k => pyrNext^[k] img)

/-- `build_pyramid(image, num_levels)`.  The final statement
`np.array(pyramid, dtype=type(img_lev))` reads the loop variable `img_lev`,
which is assigned only inside `for i in range(num_levels)`; when that loop body
never runs (exactly when `num_levels <= 0`) the call raises
`UnboundLocalError`, modelled here as `none`. -/
def build_pyramid (image : Img) (num_levels : Int) : Option (List Img) :=
  if num_levels ≤ 0 then none else some (pyramidList image num_levels.toNat)

/-- The row-major list of index pairs of an `h × w` grid (the visit order of a
nested `for i ... for j ...` loop, and of `np.where` on an `h × w` array). -/
def gridPairs (h w : Nat) : List (Nat × Nat) :=
  (List.range h).product (List.range w)

/-- Overwrite one cell of a grid (one numpy element assignment `g[p] = x`). -/
def updCell {α : Type} (g : Nat → Nat → α) (p : Nat × Nat) (x : α) :
    Nat → Nat → α :=
  fun a b => if a = p.1 ∧ b = p.2 then x else g a b

/-- One iteration of a write loop: at index pair `p`, either overwrite cell `p`
with the computed value (`f p = some x`) or leave the grid unchanged
(`f p = none`). -/
def stepWrite {α : Type} (f : Nat × Nat → Option α) (g : Nat → Nat → α)
    (p : Nat × Nat) : Nat → Nat → α :=
  match f p with
  | some x => updCell g p x
  | none => g

/-- Sum of the elementwise product of two pixel functions over the index
rectangle `[r0, r1) × [c0, c1)` (one entry of `A.T @ A` or of `A.T @ b`,
where the matrix columns are window slices flattened in any fixed order). -/
def winDot (f g : Nat → Nat → ℚ) (r0 r1 c0 c1 : Nat) : ℚ :=
  ∑ a ∈ Finset.Ico r0 r1, ∑ b ∈ Finset.Ico c0 c1, f a b * g a b

/-- A normal-equations entry over the dense-solver window centred at `(i, j)`:
rows `[i - w2, i + 1 + w2)`, columns `[j - w2, j + 1 + w2)`. -/
def lkC (f g : Nat → Nat → ℚ) (w2 i j : Nat) : ℚ :=
  winDot f g (i - w2) (i + 1 + w2) (j - w2) (j + 1 + w2)

/-- Determinant of `C = A.T @ A` for the dense-solver window at `(i, j)`. -/
def lkDet (Ix Iy : Nat → Nat → ℚ) (w2 i j : Nat) : ℚ :=
  lkC Ix Ix w2 i j * lkC Iy Iy w2 i j - lkC Ix Iy w2 i j * lkC Ix Iy w2 i j

/-- First entry of `A.T @ b` with `b = -It` over the window at `(i, j)`. -/
def lkG1 (Ix It : Nat → Nat → ℚ) (w2 i j : Nat) : ℚ :=
  lkC Ix (fun a b => -(It a b)) w2 i j

/-- Second entry of `A.T @ b` with `b = -It` over the window at `(i, j)`. -/
def lkG2 (Iy It : Nat → Nat → ℚ) (w2 i j : Nat) : ℚ :=
  lkC Iy (fun a b => -(It a b)) w2 i j

/-- First component of `np.linalg.inv(C) @ A.T @ b` (Cramer form) for the
dense-solver window at `(i, j)`. -/
def lkDu (Ix Iy It : Nat → Nat → ℚ) (w2 i j : Nat) : ℚ :=
  (lkC Iy Iy w2 i j * lkG1 Ix It w2 i j
    - lkC Ix Iy w2 i j * lkG2 Iy It w2 i j) / lkDet Ix Iy w2 i j

/-- Second component of `np.linalg.inv(C) @ A.T @ b` (Cramer form) for the
dense-solver window at `(i, j)`. -/
def lkDv (Ix Iy It : Nat → Nat → ℚ) (w2 i j : Nat) : ℚ :=
  (lkC Ix Ix w2 i j * lkG2 Iy It w2 i j
    - lkC Ix Iy w2 i j * lkG1 Ix It w2 i j) / lkDet Ix Iy w2 i j

/-- The dense-solver loop body at pixel `(i, j)`: write the least-squares
solution when `det(C) > 1e-4`, otherwise leave the pixel untouched. -/
def lkSolve (Ix Iy It : Nat → Nat → ℚ) (w2 i j : Nat) : Option (ℚ × ℚ) :=
  if 1 / 10000 < lkDet Ix Iy w2 i j then
    some (lkDu Ix Iy It w2 i j, lkDv Ix Iy It w2 i j)
  else none

/-- The index pairs visited by the dense-solver nested loop
`for i in range(w2, h - w2): for j in range(w2, w - w2)` (row-major). -/
def loopPairs (h w w2 : Nat) : List (Nat × Nat) :=
  (gridPairs (h - 2 * w2) (w - 2 * w2)).map (fun p => (p.1 + w2, p.2 + w2))

/-- Horizontal gradient `Ix` of `I2` (step (1) of `lucas_kanade_step`). -/
def lkGradX (I2 : Img) : Img := conv2same 3 X_DERIVATIVE_FILTER I2

/-- Vertical gradient `Iy` of `I2` (step (1) of `lucas_kanade_step`). -/
def lkGradY (I2 : Img) : Img := conv2same 3 Y_DERIVATIVE_FILTER I2

/-- Temporal difference `It = I2 - I1` (step (2) of `lucas_kanade_step`). -/
def lkIt (I1 I2 : Img) : Nat → Nat → ℚ :=
  fun a b => I2.data a b - I1.data a b

/-- The pair grid `(du, dv)` produced by the write loop of
`lucas_kanade_step`, both components initialized to all zeros. -/
def lkGrid (I1 I2 : Img) (window_size : Nat) : Nat → Nat → ℚ × ℚ :=
  (loopPairs I1.h I1.w (window_size / 2)).foldl
    (stepWrite fun p =>
      lkSolve (lkGradX I2).data (lkGradY I2).data (lkIt I1 I2)
        (window_size / 2) p.1 p.2)
    (fun _ _ => (0, 0))

/-- `lucas_kanade_step(I1, I2, window_size)`: the per-pixel optical-flow maps
`(du, dv)`, each of the shape of `I1`. -/
def lucas_kanade_step (I1 I2 : Img) (window_size : Nat) : Img × Img :=
  (⟨I1.h, I1.w, fun a b => (lkGrid I1 I2 window_size a b).1⟩,
   ⟨I1.h, I1.w, fun a b => (lkGrid I1 I2 window_size a b).2⟩)

/-- The numpy slice `img[r0:r1, c0:c1]` (with `r0 ≤ r1`, `c0 ≤ c1` in the uses
below, where the bounds are already clamped to the image). -/
def crop (img : Img) (r0 r1 c0 c1 : Nat) : Img :=
  ⟨r1 - r0, c1 - c0, fun a b => img.data (r0 + a) (c0 + b)⟩

/-- `arr.max()` over all pixels of an image (row-major fold; numpy requires a
nonempty array, so the empty default 0 is never reached in the modelled
calls). -/
def imgMax (R : Img) : ℚ :=
  match (gridPairs R.h R.w).map (fun p => R.data p.1 p.2) with
  | [] => 0
  | x :: xs => xs.foldl max x

/-- The clamped corner window row bounds `max(0, i - w2)` and
`min(h, i + 1 + w2)` used by `faster_lucas_kanade_step` (the lower clamp is
Nat truncated subtraction). -/
def clampLo (i w2 : Nat) : Nat := i - w2

/-- The clamped upper window bound `min(n, i + 1 + w2)`. -/
def clampHi (n i w2 : Nat) : Nat := min n (i + 1 + w2)

/-- The window of `I` around corner `(i, j)`, clipped to the bounds of `I1`
(the source clips both images with `I1.shape`). -/
def cornerWin (I1 I : Img) (window_size i j : Nat) : Img :=
  crop I (clampLo i (window_size / 2)) (clampHi I1.h i (window_size / 2))
         (clampLo j (window_size / 2)) (clampHi I1.w j (window_size / 2))

/-- Horizontal gradient of the clipped `I2` window (convolved over the window
itself, with symmetric boundary at the window edges). -/
def cornerIx (I1 I2 : Img) (window_size i j : Nat) : Img :=
  conv2same 3 X_DERIVATIVE_FILTER (cornerWin I1 I2 window_size i j)

/-- Vertical gradient of the clipped `I2` window. -/
def cornerIy (I1 I2 : Img) (window_size i j : Nat) : Img :=
  conv2same 3 Y_DERIVATIVE_FILTER (cornerWin I1 I2 window_size i j)

/-- Temporal difference over the clipped windows,
`I2_win - I1_win` pointwise. -/
def cornerIt (I1 I2 : Img) (window_size i j : Nat) : Nat → Nat → ℚ :=
  fun a b => (cornerWin I1 I2 window_size i j).data a b -
    (cornerWin I1 I1 window_size i j).data a b

/-- A normal-equations entry of the corner solve: the window sum runs over the
whole clipped window (all of its rows and columns). -/
def cornerC (I1 I2 : Img) (window_size i j : Nat)
    (f g : Nat → Nat → ℚ) : ℚ :=
  winDot f g 0 (cornerWin I1 I2 window_size i j).h
           0 (cornerWin I1 I2 window_size i j).w

/-- Determinant of `A.T @ A` for the corner solve at `(i, j)`. -/
def cornerDet (I1 I2 : Img) (window_size i j : Nat) : ℚ :=
  cornerC I1 I2 window_size i j
      (cornerIx I1 I2 window_size i j).data (cornerIx I1 I2 window_size i j).data *
    cornerC I1 I2 window_size i j
      (cornerIy I1 I2 window_size i j).data (cornerIy I1 I2 window_size i j).data -
  cornerC I1 I2 window_size i j
      (cornerIx I1 I2 window_size i j).data (cornerIy I1 I2 window_size i j).data *
    cornerC I1 I2 window_size i j
      (cornerIx I1 I2 window_size i j).data (cornerIy I1 I2 window_size i j).data

/-- First entry of `A.T @ b` (`b = -It`) for the corner solve. -/
def cornerG1 (I1 I2 : Img) (window_size i j : Nat) : ℚ :=
  cornerC I1 I2 window_size i j (cornerIx I1 I2 window_size i j).data
    (fun a b => -(cornerIt I1 I2 window_size i j a b))

/-- Second entry of `A.T @ b` (`b = -It`) for the corner solve. -/
def cornerG2 (I1 I2 : Img) (window_size i j : Nat) : ℚ :=
  cornerC I1 I2 window_size i j (cornerIy I1 I2 window_size i j).data
    (fun a b => -(cornerIt I1 I2 window_size i j a b))

/-- First component of the unguarded corner solve
`np.linalg.inv(A.T @ A) @ A.T @ b` at corner `(i, j)`.  The source has no
determinant guard here (`np.linalg.inv` would raise on an exactly singular
matrix; the spec assumes the system is always solvable, and the division is
total in the rational model). -/
def cornerDu (I1 I2 : Img) (window_size i j : Nat) : ℚ :=
  (cornerC I1 I2 window_size i j
      (cornerIy I1 I2 window_size i j).data (cornerIy I1 I2 window_size i j).data *
      cornerG1 I1 I2 window_size i j -
    cornerC I1 I2 window_size i j
      (cornerIx I1 I2 window_size i j).data (cornerIy I1 I2 window_size i j).data *
      cornerG2 I1 I2 window_size i j) / cornerDet I1 I2 window_size i j

/-- Second component of the unguarded corner solve at corner `(i, j)`. -/
def cornerDv (I1 I2 : Img) (window_size i j : Nat) : ℚ :=
  (cornerC I1 I2 window_size i j
      (cornerIx I1 I2 window_size i j).data (cornerIx I1 I2 window_size i j).data *
      cornerG2 I1 I2 window_size i j -
    cornerC I1 I2 window_size i j
      (cornerIx I1 I2 window_size i j).data (cornerIy I1 I2 window_size i j).data *
      cornerG1 I1 I2 window_size i j) / cornerDet I1 I2 window_size i j

/-- The corner list of `faster_lucas_kanade_step`:
`np.where(haris_response > 0.01 * haris_response.max())`, in row-major order
over the response array `R = harris(I2)`. -/
def cornerList (R : Img) : List (Nat × Nat) :=
  (gridPairs R.h R.w).filter (fun p => imgMax R / 100 < R.data p.1 p.2)

/-- The `(du, dv)` pair grid written by the corner loop of
`faster_lucas_kanade_step`, both components initialized to all zeros. -/
def fastGrid (harris : Img → Img) (I1 I2 : Img) (window_size : Nat) :
    Nat → Nat → ℚ × ℚ :=
  (cornerList (harris I2)).foldl
    (stepWrite fun p =>
      some (cornerDu I1 I2 window_size p.1 p.2,
            cornerDv I1 I2 window_size p.1 p.2))
    (fun _ _ => (0, 0))

/-- `faster_lucas_kanade_step(I1, I2, window_size)`, parameterized by the
external `cv2.cornerHarris(blockSize=5, k=0.05, ksize=3)` collaborator
`harris`: if `min(I1.shape) < 4 * window_size`, delegate to
`lucas_kanade_step`; otherwise solve (unguarded) only at the pixels whose
Harris response exceeds 1 percent of the maximal response. -/
def faster_lucas_kanade_step (harris : Img → Img) (I1 I2 : Img)
    (window_size : Nat) : Img × Img :=
  if min I1.h I1.w < 4 * window_size then lucas_kanade_step I1 I2 window_size
  else
    (⟨I1.h, I1.w, fun a b => (fastGrid harris I1 I2 window_size a b).1⟩,
     ⟨I1.h, I1.w, fun a b => (fastGrid harris I1 I2 window_size a b).2⟩)

/-- The external `cv2.resize` collaborator: `resize img W H` resizes `img` to
`dsize = (W, H)`, i.e. to `H` rows and `W` columns. -/
abbrev Resize : Type := Img → Nat → Nat → Img

/-- The external `scipy.interpolate.griddata(method='cubic',
fill_value=np.nan)` collaborator: given the source image and the two
resolution-matched displacement fields, it returns the cubic scattered-data
interpolation of the image at sample point
`(j + u i j, i + v i j)` for output pixel `(i, j)`, or `none` where the
sample falls outside the data hull (the `np.nan` fill). -/
abbrev Interp : Type := Img → (Nat → Nat → ℚ) → (Nat → Nat → ℚ) → Nat → Nat → Option ℚ

/-- The column displacement field after step (1) of `warp_image`: `u` resized
to the image shape, then multiplied by `U_FACTOR = w / u.shape[1]`.  When
`u.w = 0` the Python factor computation would divide by zero; the rational
model makes it the total division. -/
def warpU (resize : Resize) (image u : Img) : Img :=
  ⟨image.h, image.w, fun a b =>
    (resize u image.w image.h).data a b * ((image.w : ℚ) / (u.w : ℚ))⟩

/-- The row displacement field after step (1) of `warp_image`: `v` resized to
the image shape, then multiplied by `V_FACTOR = h / v.shape[0]`. -/
def warpV (resize : Resize) (image v : Img) : Img :=
  ⟨image.h, image.w, fun a b =>
    (resize v image.w image.h).data a b * ((image.h : ℚ) / (v.h : ℚ))⟩

/-- `warp_image(image, u, v)`: resample `image` under the displacement fields
through the `griddata` collaborator, then fill every `nan` hole with the
source pixel at the same output location, and reshape to `image`'s shape. -/
def warp_image (resize : Resize) (interp : Interp) (image u v : Img) : Img :=
  ⟨image.h, image.w, fun i j =>
    match interp image (warpU resize image u).data (warpV resize image v).data
        i j with
    | some x => x
    | none => image.data i j⟩

/-- Elementwise in-place addition `x += y` (numpy keeps the shape of `x`). -/
def imgAdd (x y : Img) : Img :=
  ⟨x.h, x.w, fun a b => x.data a b + y.data a b⟩

/-- Elementwise scaling `c * x`. -/
def imgScale (c : ℚ) (x : Img) : Img :=
  ⟨x.h, x.w, fun a b => c * x.data a b⟩

/-- The inner `for iter in range(max_iter)` loop of
`lucas_kanade_optical_flow` at one pyramid level: state is
`(u, v, I2_warp)`; each iteration runs a dense step, accumulates into
`(u, v)` and re-warps that level's `I2`. -/
def lkIters (resize : Resize) (interp : Interp) (window_size : Nat)
    (I1l I2l : Img) : Nat → Img × Img × Img → Img × Img × Img
  | 0, s => s
  | n + 1, (u, v, I2w) =>
      let du := (lucas_kanade_step I1l I2w window_size).1
      let dv := (lucas_kanade_step I1l I2w window_size).2
      let u2 := imgAdd u du
      let v2 := imgAdd v dv
      lkIters resize interp window_size I1l I2l n
        (u2, v2, warp_image resize interp I2l u2 v2)

/-- One pyramid level of `lucas_kanade_optical_flow`: warp that level's `I2`
by the incoming `(u, v)`, then run `max_iter` dense-step iterations. -/
def lkLevel (resize : Resize) (interp : Interp) (window_size max_iter : Nat)
    (I1l I2l : Img) (uv : Img × Img) : Img × Img :=
  let s := lkIters resize interp window_size I1l I2l max_iter
    (uv.1, uv.2, warp_image resize interp I2l uv.1 uv.2)
  (s.1, s.2.1)

/-- The `for level in range(num_levels, -1, -1)` loop of
`lucas_kanade_optical_flow`: process the current level, and between levels
resize `(u, v)` to the next finer level's resolution (taken from the `I2`
pyramid) and multiply by the fixed factor `DOWN_FACTOR = 2`. -/
def lkLevels (resize : Resize) (interp : Interp) (window_size max_iter : Nat)
    (p1 p2 : List Img) : Nat → Img × Img → Img × Img
  | 0, uv => lkLevel resize interp window_size max_iter
      (p1.getD 0 imgDefault) (p2.getD 0 imgDefault) uv
  | l + 1, uv =>
      let uv2 := lkLevel resize interp window_size max_iter
        (p1.getD (l + 1) imgDefault) (p2.getD (l + 1) imgDefault) uv
      let tgt := p2.getD l imgDefault
      lkLevels resize interp window_size max_iter p1 p2 l
        (imgScale 2 (resize uv2.1 tgt.w tgt.h),
         imgScale 2 (resize uv2.2 tgt.w tgt.h))

/-- `int(np.ceil(n / e))` for natural `n` and positive `e`. -/
def ceilDiv (n e : Nat) : Nat := (n + e - 1) / e

/-- `lucas_kanade_optical_flow(I1, I2, window_size, max_iter, num_levels)`:
round each dimension of the working size up to a multiple of
`2 ^ num_levels`, resize both inputs to that size when their shape differs
from it (the source compares the `(h, w)` shape tuple against the `(w, h)`
`dsize` tuple, which is transcribed literally), build both pyramids, then run
the coarse-to-fine loop.  `build_pyramid` raises for `num_levels = 0`
(modelled by `none`), so the whole call fails then. -/
def lucas_kanade_optical_flow (resize : Resize) (interp : Interp)
    (I1 I2 : Img) (window_size max_iter num_levels : Nat) :
    Option (Img × Img) :=
  let e := 2 ^ num_levels
  let newW := ceilDiv I1.w e * e
  let newH := ceilDiv I1.h e * e
  let J1 := if I1.h = newW ∧ I1.w = newH then I1 else resize I1 newW newH
  let J2 := if I2.h = newW ∧ I2.w = newH then I2 else resize I2 newW newH
  match build_pyramid J1 num_levels, build_pyramid J2 num_levels with
  | some p1, some p2 =>
      let last := p2.getD (p2.length - 1) imgDefault
      some (lkLevels resize interp window_size max_iter p1 p2 num_levels
        (⟨last.h, last.w, fun _ _ => 0⟩, ⟨last.h, last.w, fun _ _ => 0⟩))
  | _, _ => none

/-- `np.mean` of a displacement map over its interior region (a
`window_size / 2` border excluded on all sides): sum divided by the element
count of the slice. -/
def interiorMean (d : Img) (window_size : Nat) : ℚ :=
  (∑ a ∈ Finset.Ico (window_size / 2) (d.h - window_size / 2),
    ∑ b ∈ Finset.Ico (window_size / 2) (d.w - window_size / 2), d.data a b) /
  (((d.h - 2 * (window_size / 2)) * (d.w - 2 * (window_size / 2)) : Nat) : ℚ)

/-- The slice-add `u[w2 : d.h - w2, w2 : d.w - w2] += interiorMean d` of the
stabilization drivers (the slice bounds come from the shape of the per-frame
displacement `d`, the slice is taken in the running grid `u`). -/
def accumulateMeanStep (u d : Img) (window_size : Nat) : Img :=
  ⟨u.h, u.w, fun a b =>
    if window_size / 2 ≤ a ∧ a < d.h - window_size / 2 ∧
        window_size / 2 ≤ b ∧ b < d.w - window_size / 2 then
      u.data a b + interiorMean d window_size
    else u.data a b⟩

/-- One per-frame accumulation step of the stabilization drivers (Part D of
both `lucas_kanade_video_stabilization` and
`lucas_kanade_faster_video_stabilization`): add the interior means of the
frame's `(du, dv)` into the interior band of the running `(u, v)`. -/
def stabilizationAccumulate (u v du dv : Img) (window_size : Nat) :
    Img × Img :=
  (accumulateMeanStep u du window_size, accumulateMeanStep v dv window_size)

/-- A concrete 4×4 test image. -/
def cImgA : Img := ⟨4, 4, fun a b => (a : ℚ) + (b : ℚ)⟩

/-- A second concrete 4×4 test image. -/
def cImgA2 : Img := ⟨4, 4, fun a b => (a : ℚ) * (b : ℚ) + 1⟩

/-- A concrete 3×3 test image. -/
def cImgB : Img := ⟨3, 3, fun a b => (a : ℚ) * (b : ℚ)⟩

/-- A concrete 2×2 test image. -/
def cImgSmall : Img := ⟨2, 2, fun _ _ => 1⟩

/-- Another concrete 2×2 test image. -/
def cImgSmall2 : Img := ⟨2, 2, fun _ _ => 2⟩

/-- A concrete 5×5 test image (its dimensions are not multiples of 2). -/
def cImg55 : Img := ⟨5, 5, fun a b => (a : ℚ) + (b : ℚ)⟩

/-- A concrete all-zero 2×2 displacement field. -/
def zImg : Img := ⟨2, 2, fun _ _ => 0⟩

/-- A concrete shape-respecting stand-in for the `cv2.resize` collaborator:
it honours the requested output size and repeats the top-left sample. -/
def resizeConst : Resize := fun img W H => ⟨H, W, fun _ _ => img.data 0 0⟩

/-- A concrete `griddata` stand-in that always reports a hole. -/
def interpHole : Interp := fun _ _ _ _ _ => none

/-- A concrete `griddata` stand-in that reproduces the image value at every
output location (exactness at the data sites). -/
def interpExact : Interp := fun img _ _ i j => some (img.data i j)

/-- A concrete Harris-response stand-in: constant response 1. -/
def harrisOne : Img → Img := fun img => ⟨img.h, img.w, fun _ _ => 1⟩

theorem mem_gridPairs {h w : Nat} {p : Nat × Nat} :
    p ∈ gridPairs h w ↔ p.1 < h ∧ p.2 < w := by
  obtain ⟨a, b⟩ := p
  simp [gridPairs, List.mem_product]

theorem nodup_gridPairs (h w : Nat) : (gridPairs h w).Nodup :=
  List.Nodup.product (List.nodup_range h) (List.nodup_range w)

theorem updCell_ne {α : Type} (g : Nat → Nat → α) (p : Nat × Nat) (x : α)
    {a b : Nat} (hab : (a, b) ≠ p) : updCell g p x a b = g a b := by
  unfold updCell
  have : ¬(a = p.1 ∧ b = p.2) := by
    rintro ⟨h1, h2⟩
    exact hab (by cases p; simp_all)
  simp [this]

/-- A write loop over a duplicate-free list of index pairs: the final grid at
cell `(a, b)` is the value the loop computed there if the loop visited
`(a, b)` and did write, and the initial value otherwise. -/
theorem foldl_stepWrite {α : Type} (f : Nat × Nat → Option α)
    (L : List (Nat × Nat)) (hL : L.Nodup) (g0 : Nat → Nat → α) (a b : Nat) :
    L.foldl (stepWrite f) g0 a b =
      if (a, b) ∈ L then (f (a, b)).getD (g0 a b) else g0 a b := by
  induction L generalizing g0 with
  | nil => simp
  | cons p t ih =>
    rw [List.nodup_cons] at hL
    rw [List.foldl_cons, ih hL.2]
    by_cases hmem : (a, b) ∈ t
    · have hne : (a, b) ≠ p := by
        rintro rfl
        exact hL.1 hmem
      have hcell : stepWrite f g0 p a b = g0 a b := by
        unfold stepWrite
        cases f p with
        | none => rfl
        | some x => exact updCell_ne g0 p x hne
      simp [hmem, List.mem_cons, hcell]
    · by_cases hp : (a, b) = p
      · subst hp
        have hcell : stepWrite f g0 (a, b) a b = (f (a, b)).getD (g0 a b) := by
          unfold stepWrite
          cases f (a, b) with
          | none => rfl
          | some x => simp [updCell]
        simp [hmem, List.mem_cons, hcell]
      · have hcell : stepWrite f g0 p a b = g0 a b := by
          unfold stepWrite
          cases f p with
          | none => rfl
          | some x => exact updCell_ne g0 p x hp
        simp [hmem, hp, List.mem_cons, hcell]

theorem mem_loopPairs {h w w2 : Nat} {p : Nat × Nat} :
    p ∈ loopPairs h w w2 ↔
      w2 ≤ p.1 ∧ p.1 + w2 < h ∧ w2 ≤ p.2 ∧ p.2 + w2 < w := by
  obtain ⟨a, b⟩ := p
  unfold loopPairs
  rw [List.mem_map]
  constructor
  · rintro ⟨⟨qa, qb⟩, hq, heq⟩
    rw [mem_gridPairs] at hq
    obtain ⟨h1, h2⟩ := hq
    simp only [Prod.mk.injEq] at heq
    obtain ⟨rfl, rfl⟩ := heq
    refine ⟨Nat.le_add_left _ _, ?_, Nat.le_add_left _ _, ?_⟩ <;> omega
  · rintro ⟨h1, h2, h3, h4⟩
    refine ⟨(a - w2, b - w2), ?_, ?_⟩
    · rw [mem_gridPairs]
      constructor <;> simp <;> omega
    · simp only [Prod.mk.injEq]
      omega

theorem nodup_loopPairs (h w w2 : Nat) : (loopPairs h w w2).Nodup := by
  apply List.Nodup.map _ (nodup_gridPairs _ _)
  rintro ⟨a, b⟩ ⟨c, d⟩ hcd
  simp only [Prod.mk.injEq] at hcd ⊢
  omega

/-- The dense-solver write loop, read off cell by cell: each visited cell holds
either the guarded least-squares solution or zero, and unvisited cells hold
zero. -/
theorem lkGrid_eq (I1 I2 : Img) (window_size i j : Nat) :
    lkGrid I1 I2 window_size i j =
      if (i, j) ∈ loopPairs I1.h I1.w (window_size / 2) then
        (lkSolve (lkGradX I2).data (lkGradY I2).data (lkIt I1 I2)
          (window_size / 2) i j).getD (0, 0)
      else (0, 0) :=
  foldl_stepWrite _ _ (nodup_loopPairs _ _ _) _ i j

/-- C3: for equal-shape inputs, `lucas_kanade_step` leaves every pixel within
`window_size / 2` of a border at zero displacement; at interior pixels it
leaves zero when the windowed normal matrix has determinant at most `1e-4`,
and otherwise stores the least-squares solution of the 2×2 normal-equations
system built from the 3×3-kernel gradients of `I2` and the temporal difference
`I2 - I1` over the window. -/
theorem lucas_kanade_step_spec (I1 I2 : Img) (window_size : Nat)
    (hh : I2.h = I1.h) (hw : I2.w = I1.w) (i j : Nat) :
    ((i < window_size / 2 ∨ I1.h ≤ i + window_size / 2 ∨
        j < window_size / 2 ∨ I1.w ≤ j + window_size / 2) →
      (lucas_kanade_step I1 I2 window_size).1.data i j = 0 ∧
      (lucas_kanade_step I1 I2 window_size).2.data i j = 0) ∧
    (window_size / 2 ≤ i → i + window_size / 2 < I1.h →
     window_size / 2 ≤ j → j + window_size / 2 < I1.w →
      (lkDet (lkGradX I2).data (lkGradY I2).data (window_size / 2) i j
          ≤ 1 / 10000 →
        (lucas_kanade_step I1 I2 window_size).1.data i j = 0 ∧
        (lucas_kanade_step I1 I2 window_size).2.data i j = 0) ∧
      (1 / 10000 <
          lkDet (lkGradX I2).data (lkGradY I2).data (window_size / 2) i j →
        (lucas_kanade_step I1 I2 window_size).1.data i j =
          lkDu (lkGradX I2).data (lkGradY I2).data (lkIt I1 I2)
            (window_size / 2) i j ∧
        (lucas_kanade_step I1 I2 window_size).2.data i j =
          lkDv (lkGradX I2).data (lkGradY I2).data (lkIt I1 I2)
            (window_size / 2) i j)) := by
  constructor
  · intro hborder
    have hmem : (i, j) ∉ loopPairs I1.h I1.w (window_size / 2) := by
      intro hm
      rw [mem_loopPairs] at hm
      omega
    constructor
    · show (lkGrid I1 I2 window_size i j).1 = 0
      rw [lkGrid_eq, if_neg hmem]
    · show (lkGrid I1 I2 window_size i j).2 = 0
      rw [lkGrid_eq, if_neg hmem]
  · intro h1 h2 h3 h4
    have hmem : (i, j) ∈ loopPairs I1.h I1.w (window_size / 2) := by
      rw [mem_loopPairs]
      exact ⟨h1, h2, h3, h4⟩
    constructor
    · intro hdet
      have hsolve : lkSolve (lkGradX I2).data (lkGradY I2).data (lkIt I1 I2)
          (window_size / 2) i j = none := by
        unfold lkSolve
        rw [if_neg (not_lt.mpr hdet)]
      constructor
      · show (lkGrid I1 I2 window_size i j).1 = 0
        rw [lkGrid_eq, if_pos hmem, hsolve]
        rfl
      · show (lkGrid I1 I2 window_size i j).2 = 0
        rw [lkGrid_eq, if_pos hmem, hsolve]
        rfl
    · intro hdet
      have hsolve : lkSolve (lkGradX I2).data (lkGradY I2).data (lkIt I1 I2)
          (window_size / 2) i j =
          some (lkDu (lkGradX I2).data (lkGradY I2).data (lkIt I1 I2)
              (window_size / 2) i j,
            lkDv (lkGradX I2).data (lkGradY I2).data (lkIt I1 I2)
              (window_size / 2) i j) := by
        unfold lkSolve
        rw [if_pos hdet]
      constructor
      · show (lkGrid I1 I2 window_size i j).1 = _
        rw [lkGrid_eq, if_pos hmem, hsolve]
        rfl
      · show (lkGrid I1 I2 window_size i j).2 = _
        rw [lkGrid_eq, if_pos hmem, hsolve]
        rfl

/-- C10: when the smaller image dimension is strictly below `window_size`, the
dense-solver loop ranges are empty and `lucas_kanade_step` returns all-zero
`du` and `dv`. -/
theorem lucas_kanade_step_small_image_zero (I1 I2 : Img) (window_size : Nat)
    (hh : I2.h = I1.h) (hw : I2.w = I1.w)
    (hsmall : min I1.h I1.w < window_size) (i j : Nat) :
    (lucas_kanade_step I1 I2 window_size).1.data i j = 0 ∧
    (lucas_kanade_step I1 I2 window_size).2.data i j = 0 := by
  have hmem : (i, j) ∉ loopPairs I1.h I1.w (window_size / 2) := by
    intro hm
    rw [mem_loopPairs] at hm
    omega
  constructor
  · show (lkGrid I1 I2 window_size i j).1 = 0
    rw [lkGrid_eq, if_neg hmem]
  · show (lkGrid I1 I2 window_size i j).2 = 0
    rw [lkGrid_eq, if_neg hmem]

/-- C4: on small images (`min(I1.shape) < 4 * window_size`),
`faster_lucas_kanade_step` returns exactly the output of `lucas_kanade_step`,
whatever the Harris collaborator does. -/
theorem faster_lucas_kanade_step_delegates (harris : Img → Img) (I1 I2 : Img)
    (window_size : Nat) (hh : I2.h = I1.h) (hw : I2.w = I1.w)
    (hsmall : min I1.h I1.w < 4 * window_size) :
    faster_lucas_kanade_step harris I1 I2 window_size =
      lucas_kanade_step I1 I2 window_size := by
  unfold faster_lucas_kanade_step
  rw [if_pos hsmall]

/-- The corner write loop, read off cell by cell. -/
theorem fastGrid_eq (harris : Img → Img) (I1 I2 : Img)
    (window_size i j : Nat) :
    fastGrid harris I1 I2 window_size i j =
      if (i, j) ∈ cornerList (harris I2) then
        (cornerDu I1 I2 window_size i j, cornerDv I1 I2 window_size i j)
      else (0, 0) := by
  have key := foldl_stepWrite
    (fun p => some (cornerDu I1 I2 window_size p.1 p.2,
      cornerDv I1 I2 window_size p.1 p.2))
    (cornerList (harris I2))
    ((nodup_gridPairs _ _).filter _) (fun _ _ => (0, 0)) i j
  exact key

theorem mem_cornerList {R : Img} {p : Nat × Nat} :
    p ∈ cornerList R ↔
      p.1 < R.h ∧ p.2 < R.w ∧ imgMax R / 100 < R.data p.1 p.2 := by
  unfold cornerList
  rw [List.mem_filter, mem_gridPairs, decide_eq_true_iff]
  tauto

/-- C5: on large-enough images, `faster_lucas_kanade_step` writes the
unguarded 2×2 normal-equations solution over the border-clipped window at
every pixel whose Harris response exceeds 1 percent of the maximal response,
and leaves every other pixel at zero displacement. -/
theorem faster_lucas_kanade_step_corners (harris : Img → Img) (I1 I2 : Img)
    (window_size : Nat) (hh : I2.h = I1.h) (hw : I2.w = I1.w)
    (hRh : (harris I2).h = I1.h) (hRw : (harris I2).w = I1.w)
    (hbig : 4 * window_size ≤ min I1.h I1.w) (i j : Nat)
    (hi : i < I1.h) (hj : j < I1.w) :
    (imgMax (harris I2) / 100 < (harris I2).data i j →
      (faster_lucas_kanade_step harris I1 I2 window_size).1.data i j =
        cornerDu I1 I2 window_size i j ∧
      (faster_lucas_kanade_step harris I1 I2 window_size).2.data i j =
        cornerDv I1 I2 window_size i j) ∧
    (¬ imgMax (harris I2) / 100 < (harris I2).data i j →
      (faster_lucas_kanade_step harris I1 I2 window_size).1.data i j = 0 ∧
      (faster_lucas_kanade_step harris I1 I2 window_size).2.data i j = 0) := by
  have hbranch : ¬ min I1.h I1.w < 4 * window_size := not_lt.mpr hbig
  unfold faster_lucas_kanade_step
  rw [if_neg hbranch]
  constructor
  · intro hsel
    have hmem : (i, j) ∈ cornerList (harris I2) := by
      rw [mem_cornerList]
      exact ⟨by omega, by omega, hsel⟩
    constructor
    · show (fastGrid harris I1 I2 window_size i j).1 = _
      rw [fastGrid_eq, if_pos hmem]
    · show (fastGrid harris I1 I2 window_size i j).2 = _
      rw [fastGrid_eq, if_pos hmem]
  · intro hsel
    have hmem : (i, j) ∉ cornerList (harris I2) := by
      intro hm
      rw [mem_cornerList] at hm
      exact hsel hm.2.2
    constructor
    · show (fastGrid harris I1 I2 window_size i j).1 = 0
      rw [fastGrid_eq, if_neg hmem]
    · show (fastGrid harris I1 I2 window_size i j).2 = 0
      rw [fastGrid_eq, if_neg hmem]

/-- C7: `warp_image` always has exactly the shape of its input image, and
every hole pixel (where the interpolation collaborator returns `none`, the
`np.nan` fill) is filled with the input image's pixel at that same output
location. -/
theorem warp_image_shape_and_holes (resize : Resize) (interp : Interp)
    (image u v : Img) :
    (warp_image resize interp image u v).h = image.h ∧
    (warp_image resize interp image u v).w = image.w ∧
    ∀ i j, interp image (warpU resize image u).data
        (warpV resize image v).data i j = none →
      (warp_image resize interp image u v).data i j = image.data i j := by
  refine ⟨rfl, rfl, fun i j hnone => ?_⟩
  show (match interp image (warpU resize image u).data
      (warpV resize image v).data i j with
    | some x => x
    | none => image.data i j) = image.data i j
  rw [hnone]

/-- C8: warping with all-zero displacement fields is the identity: if the
resized zero fields are still zero (the linear-interpolation resize of a zero
field) and the interpolation collaborator reproduces the image value wherever
it yields one at unshifted sample points (cubic interpolation is exact at the
data sites), then `warp_image image u v` equals `image` at every pixel —
holes included, because holes are filled from `image` itself. -/
theorem warp_image_zero_identity (resize : Resize) (interp : Interp)
    (image u v : Img)
    (hu0 : ∀ a b, (resize u image.w image.h).data a b = 0)
    (hv0 : ∀ a b, (resize v image.w image.h).data a b = 0)
    (hexact : ∀ i j x, interp image (fun _ _ => 0) (fun _ _ => 0) i j = some x →
      x = image.data i j) :
    (warp_image resize interp image u v).h = image.h ∧
    (warp_image resize interp image u v).w = image.w ∧
    ∀ i j, (warp_image resize interp image u v).data i j = image.data i j := by
  have hU : (warpU resize image u).data = fun _ _ => (0 : ℚ) := by
    funext a b
    show (resize u image.w image.h).data a b * ((image.w : ℚ) / (u.w : ℚ)) = 0
    rw [hu0, zero_mul]
  have hV : (warpV resize image v).data = fun _ _ => (0 : ℚ) := by
    funext a b
    show (resize v image.w image.h).data a b * ((image.h : ℚ) / (v.h : ℚ)) = 0
    rw [hv0, zero_mul]
  refine ⟨rfl, rfl, fun i j => ?_⟩
  show (match interp image (warpU resize image u).data
      (warpV resize image v).data i j with
    | some x => x
    | none => image.data i j) = image.data i j
  rw [hU, hV]
  cases hc : interp image (fun _ _ => 0) (fun _ _ => 0) i j with
  | none => rfl
  | some x => exact hexact i j x hc

theorem le_ceilDiv_mul (n e : Nat) (he : 0 < e) : n ≤ ceilDiv n e * e := by
  unfold ceilDiv
  cases n with
  | zero => exact Nat.zero_le _
  | succ m =>
    have h1 : m + 1 + e - 1 = m + e := by omega
    rw [h1, Nat.add_div_right m he]
    have h3 := Nat.mod_lt m he
    have h4 := Nat.div_add_mod m e
    have h5 : (m / e + 1) * e = e * (m / e) + e := by ring
    rw [h5]
    omega

theorem lkIters_shape (resize : Resize) (interp : Interp)
    (window_size : Nat) (I1l I2l : Img) (n : Nat) (s : Img × Img × Img) :
    (lkIters resize interp window_size I1l I2l n s).1.h = s.1.h ∧
    (lkIters resize interp window_size I1l I2l n s).1.w = s.1.w ∧
    (lkIters resize interp window_size I1l I2l n s).2.1.h = s.2.1.h ∧
    (lkIters resize interp window_size I1l I2l n s).2.1.w = s.2.1.w := by
  induction n generalizing s with
  | zero => exact ⟨rfl, rfl, rfl, rfl⟩
  | succ m ih =>
    obtain ⟨u, v, I2w⟩ := s
    have := ih (imgAdd u (lucas_kanade_step I1l I2w window_size).1,
      imgAdd v (lucas_kanade_step I1l I2w window_size).2,
      warp_image resize interp I2l
        (imgAdd u (lucas_kanade_step I1l I2w window_size).1)
        (imgAdd v (lucas_kanade_step I1l I2w window_size).2))
    exact this

theorem lkLevel_shape (resize : Resize) (interp : Interp)
    (window_size max_iter : Nat) (I1l I2l : Img) (uv : Img × Img) :
    (lkLevel resize interp window_size max_iter I1l I2l uv).1.h = uv.1.h ∧
    (lkLevel resize interp window_size max_iter I1l I2l uv).1.w = uv.1.w ∧
    (lkLevel resize interp window_size max_iter I1l I2l uv).2.h = uv.2.h ∧
    (lkLevel resize interp window_size max_iter I1l I2l uv).2.w = uv.2.w :=
  lkIters_shape resize interp window_size I1l I2l max_iter
    (uv.1, uv.2, warp_image resize interp I2l uv.1 uv.2)

theorem lkLevels_succ_shape (resize : Resize) (interp : Interp)
    (window_size max_iter : Nat) (p1 p2 : List Img)
    (hres : ∀ img W H, (resize img W H).h = H ∧ (resize img W H).w = W)
    (l : Nat) (uv : Img × Img) :
    (lkLevels resize interp window_size max_iter p1 p2 (l + 1) uv).1.h =
      (p2.getD 0 imgDefault).h ∧
    (lkLevels resize interp window_size max_iter p1 p2 (l + 1) uv).1.w =
      (p2.getD 0 imgDefault).w ∧
    (lkLevels resize interp window_size max_iter p1 p2 (l + 1) uv).2.h =
      (p2.getD 0 imgDefault).h ∧
    (lkLevels resize interp window_size max_iter p1 p2 (l + 1) uv).2.w =
      (p2.getD 0 imgDefault).w := by
  induction l generalizing uv with
  | zero =>
    have h1 := lkLevel_shape resize interp window_size max_iter
      (p1.getD 0 imgDefault) (p2.getD 0 imgDefault)
      (imgScale 2 (resize (lkLevel resize interp window_size max_iter
          (p1.getD 1 imgDefault) (p2.getD 1 imgDefault) uv).1
          (p2.getD 0 imgDefault).w (p2.getD 0 imgDefault).h),
       imgScale 2 (resize (lkLevel resize interp window_size max_iter
          (p1.getD 1 imgDefault) (p2.getD 1 imgDefault) uv).2
          (p2.getD 0 imgDefault).w (p2.getD 0 imgDefault).h))
    obtain ⟨e1, e2, e3, e4⟩ := h1
    exact ⟨e1.trans (hres _ _ _).1, e2.trans (hres _ _ _).2,
      e3.trans (hres _ _ _).1, e4.trans (hres _ _ _).2⟩
  | succ m ih =>
    exact ih _

theorem pyramidList_getD (img : Img) (n k : Nat) (hk : k ≤ n) :
    (pyramidList img n).getD k imgDefault = pyrNext^[k] img := by
  unfold pyramidList
  rw [List.getD_eq_getElem _ _ (by simpa using by omega)]
  rcases k with _ | k
  · simp
  · simp [Function.iterate_succ_apply]

/-- C6 (amended): for equal-shape inputs, a shape-respecting resize
collaborator and `num_levels ≥ 1`, `lucas_kanade_optical_flow` succeeds and
returns `(u, v)` at the working resolution: each dimension of `I1` rounded up
to the nearest multiple of `2 ^ num_levels` (hence equal to `I1`'s resolution
exactly when both dimensions already are such multiples). -/
theorem lucas_kanade_optical_flow_shape (resize : Resize) (interp : Interp)
    (I1 I2 : Img) (window_size max_iter num_levels : Nat)
    (hres : ∀ img W H, (resize img W H).h = H ∧ (resize img W H).w = W)
    (hh : I2.h = I1.h) (hw : I2.w = I1.w) (hn : 1 ≤ num_levels) :
    ∃ uv, lucas_kanade_optical_flow resize interp I1 I2 window_size max_iter
        num_levels = some uv ∧
      uv.1.h = ceilDiv I1.h (2 ^ num_levels) * 2 ^ num_levels ∧
      uv.1.w = ceilDiv I1.w (2 ^ num_levels) * 2 ^ num_levels ∧
      uv.2.h = ceilDiv I1.h (2 ^ num_levels) * 2 ^ num_levels ∧
      uv.2.w = ceilDiv I1.w (2 ^ num_levels) * 2 ^ num_levels := by
  cases num_levels with
  | zero => omega
  | succ m =>
    have hepos : 0 < 2 ^ (m + 1) := Nat.pos_pow_of_pos _ (by norm_num)
    have hb : ∀ J : Img, build_pyramid J ((m + 1 : Nat) : Int) =
        some (pyramidList J (m + 1)) := by
      intro J
      unfold build_pyramid
      rw [if_neg (by omega), Int.toNat_natCast]
    have ha : I1.h ≤ ceilDiv I1.h (2 ^ (m + 1)) * 2 ^ (m + 1) :=
      le_ceilDiv_mul _ _ hepos
    have hbw : I1.w ≤ ceilDiv I1.w (2 ^ (m + 1)) * 2 ^ (m + 1) :=
      le_ceilDiv_mul _ _ hepos
    have hJ2 : (if I2.h = ceilDiv I1.w (2 ^ (m + 1)) * 2 ^ (m + 1) ∧
          I2.w = ceilDiv I1.h (2 ^ (m + 1)) * 2 ^ (m + 1) then I2
        else resize I2 (ceilDiv I1.w (2 ^ (m + 1)) * 2 ^ (m + 1))
          (ceilDiv I1.h (2 ^ (m + 1)) * 2 ^ (m + 1))).h =
          ceilDiv I1.h (2 ^ (m + 1)) * 2 ^ (m + 1) ∧
        (if I2.h = ceilDiv I1.w (2 ^ (m + 1)) * 2 ^ (m + 1) ∧
          I2.w = ceilDiv I1.h (2 ^ (m + 1)) * 2 ^ (m + 1) then I2
        else resize I2 (ceilDiv I1.w (2 ^ (m + 1)) * 2 ^ (m + 1))
          (ceilDiv I1.h (2 ^ (m + 1)) * 2 ^ (m + 1))).w =
          ceilDiv I1.w (2 ^ (m + 1)) * 2 ^ (m + 1) := by
      by_cases hc : I2.h = ceilDiv I1.w (2 ^ (m + 1)) * 2 ^ (m + 1) ∧
          I2.w = ceilDiv I1.h (2 ^ (m + 1)) * 2 ^ (m + 1)
      · rw [if_pos hc]
        obtain ⟨hc1, hc2⟩ := hc
        constructor <;> omega
      · rw [if_neg hc]
        exact ⟨(hres _ _ _).1, (hres _ _ _).2⟩
    unfold lucas_kanade_optical_flow
    simp only [hb]
    refine ⟨_, rfl, ?_, ?_, ?_, ?_⟩
    all_goals
      obtain ⟨s1, s2, s3, s4⟩ := lkLevels_succ_shape resize interp
        window_size max_iter _ _ hres m
        (⟨((pyramidList (if I2.h = ceilDiv I1.w (2 ^ (m + 1)) * 2 ^ (m + 1) ∧
              I2.w = ceilDiv I1.h (2 ^ (m + 1)) * 2 ^ (m + 1) then I2
            else resize I2 (ceilDiv I1.w (2 ^ (m + 1)) * 2 ^ (m + 1))
              (ceilDiv I1.h (2 ^ (m + 1)) * 2 ^ (m + 1))) (m + 1)).getD
            ((pyramidList _ (m + 1)).length - 1) imgDefault).h, _, fun _ _ => 0⟩,
         ⟨_, _, fun _ _ => 0⟩)
    all_goals
      rw [pyramidList_getD _ (m + 1) 0 (by omega),
        Function.iterate_zero_apply] at s1 s2 s3 s4
    · exact s1.trans hJ2.1
    · exact s2.trans hJ2.2
    · exact s3.trans hJ2.1
    · exact s4.trans hJ2.2

/-- C9: the per-frame accumulation step keeps the shapes of the running
displacement grids, adds the scalar interior mean of `du` (resp. `dv`) to
exactly the interior region of the running `u` (resp. `v`), and leaves every
border entry unchanged. -/
theorem stabilizationAccumulate_spec (u v du dv : Img) (window_size : Nat)
    (h1 : du.h = u.h) (h2 : du.w = u.w) (h3 : dv.h = v.h) (h4 : dv.w = v.w) :
    ((stabilizationAccumulate u v du dv window_size).1.h = u.h ∧
     (stabilizationAccumulate u v du dv window_size).1.w = u.w ∧
     (stabilizationAccumulate u v du dv window_size).2.h = v.h ∧
     (stabilizationAccumulate u v du dv window_size).2.w = v.w) ∧
    (∀ a b, (a < window_size / 2 ∨ u.h ≤ a + window_size / 2 ∨
        b < window_size / 2 ∨ u.w ≤ b + window_size / 2) →
      (stabilizationAccumulate u v du dv window_size).1.data a b =
        u.data a b) ∧
    (∀ a b, (a < window_size / 2 ∨ v.h ≤ a + window_size / 2 ∨
        b < window_size / 2 ∨ v.w ≤ b + window_size / 2) →
      (stabilizationAccumulate u v du dv window_size).2.data a b =
        v.data a b) ∧
    (∀ a b, window_size / 2 ≤ a → a + window_size / 2 < u.h →
        window_size / 2 ≤ b → b + window_size / 2 < u.w →
      (stabilizationAccumulate u v du dv window_size).1.data a b =
        u.data a b + interiorMean du window_size) ∧
    (∀ a b, window_size / 2 ≤ a → a + window_size / 2 < v.h →
        window_size / 2 ≤ b → b + window_size / 2 < v.w →
      (stabilizationAccumulate u v du dv window_size).2.data a b =
        v.data a b + interiorMean dv window_size) := by
  refine ⟨⟨rfl, rfl, rfl, rfl⟩, ?_, ?_, ?_, ?_⟩
  · intro a b hb
    show (if window_size / 2 ≤ a ∧ a < du.h - window_size / 2 ∧
        window_size / 2 ≤ b ∧ b < du.w - window_size / 2 then
      u.data a b + interiorMean du window_size else u.data a b) = u.data a b
    rw [if_neg (by omega)]
  · intro a b hb
    show (if window_size / 2 ≤ a ∧ a < dv.h - window_size / 2 ∧
        window_size / 2 ≤ b ∧ b < dv.w - window_size / 2 then
      v.data a b + interiorMean dv window_size else v.data a b) = v.data a b
    rw [if_neg (by omega)]
  · intro a b ha1 ha2 ha3 ha4
    show (if window_size / 2 ≤ a ∧ a < du.h - window_size / 2 ∧
        window_size / 2 ≤ b ∧ b < du.w - window_size / 2 then
      u.data a b + interiorMean du window_size else u.data a b) = _
    rw [if_pos (by omega)]
  · intro a b ha1 ha2 ha3 ha4
    show (if window_size / 2 ≤ a ∧ a < dv.h - window_size / 2 ∧
        window_size / 2 ≤ b ∧ b < dv.w - window_size / 2 then
      v.data a b + interiorMean dv window_size else v.data a b) = _
    rw [if_pos (by omega)]

/-- C1 (amended): for `num_levels ≥ 1`, `build_pyramid` returns a list of
exactly `num_levels + 1` images, whose entry 0 is the input unchanged and
whose entry `k + 1` is entry `k` convolved with the 5×5 binomial kernel
(symmetric boundary) and decimated by keeping every second row and column
from index 0, so each level's dimensions are the ceiling of half the
previous level's. -/
theorem build_pyramid_spec (image : Img) (num_levels : Int)
    (hn : 1 ≤ num_levels) :
    ∃ L, build_pyramid image num_levels = some L ∧
      L.length = num_levels.toNat + 1 ∧
      L.getD 0 imgDefault = image ∧
      ∀ k, k < num_levels.toNat →
        L.getD (k + 1) imgDefault =
          decimate2 (conv2same 5 PYRAMID_FILTER (L.getD k imgDefault)) ∧
        (L.getD (k + 1) imgDefault).h = ((L.getD k imgDefault).h + 1) / 2 ∧
        (L.getD (k + 1) imgDefault).w = ((L.getD k imgDefault).w + 1) / 2 := by
  refine ⟨pyramidList image num_levels.toNat, ?_, ?_, ?_, ?_⟩
  · unfold build_pyramid
    rw [if_neg (by omega)]
  · simp [pyramidList]
  · rw [pyramidList_getD image num_levels.toNat 0 (by omega)]
    exact Function.iterate_zero_apply pyrNext image
  · intro k hk
    rw [pyramidList_getD image num_levels.toNat (k + 1) (by omega),
      pyramidList_getD image num_levels.toNat k (by omega),
      Function.iterate_succ_apply']
    exact ⟨rfl, rfl, rfl⟩

/-- C1 counterexample: at `num_levels = 0` the claim promises a pyramid of
one image, but `build_pyramid` raises (`none`): the final
`np.array(pyramid, dtype=type(img_lev))` reads the loop variable of a loop
that never ran. -/
theorem build_pyramid_zero_levels_fails : build_pyramid cImgA 0 = none := rfl

/-- C2: evaluation at the failing input `num_levels = 0`: the call raises
`UnboundLocalError` (modelled by `none`) instead of returning the one-entry
pyramid, so the code fails on an input the claim (and the function's own
docstring) requires to succeed. -/
theorem build_pyramid_fails_at_zero : build_pyramid cImgB 0 = none := rfl

/-- C1 witness: the amended statement applied at a concrete image with
`num_levels = 2`. -/
theorem build_pyramid_spec_witness :
    (build_pyramid cImgB 2).map List.length = some 3 := by
  obtain ⟨L, hL, hlen, _, _⟩ := build_pyramid_spec cImgB 2 (by decide)
  rw [hL]
  show some L.length = some 3
  rw [hlen]
  decide

/-- C3 witness: the dense-step characterization applied at a concrete pair of
4×4 images with `window_size = 5`; pixel `(0, 0)` is a border pixel. -/
theorem lucas_kanade_step_spec_witness :
    (lucas_kanade_step cImgA cImgA2 5).1.data 0 0 = 0 ∧
    (lucas_kanade_step cImgA cImgA2 5).2.data 0 0 = 0 :=
  (lucas_kanade_step_spec cImgA cImgA2 5 rfl rfl 0 0).1 (Or.inl (by decide))

/-- C10 witness: 2×2 images with `window_size = 5`. -/
theorem lucas_kanade_step_small_image_zero_witness :
    (lucas_kanade_step cImgSmall cImgSmall2 5).1.data 1 1 = 0 ∧
    (lucas_kanade_step cImgSmall cImgSmall2 5).2.data 1 1 = 0 :=
  lucas_kanade_step_small_image_zero cImgSmall cImgSmall2 5 rfl rfl
    (by decide) 1 1

/-- C4 witness: delegation on a concrete 2×2 pair with `window_size = 1`
(`min(shape) = 2 < 4`). -/
theorem faster_lucas_kanade_step_delegates_witness :
    faster_lucas_kanade_step harrisOne cImgSmall cImgSmall2 1 =
      lucas_kanade_step cImgSmall cImgSmall2 1 :=
  faster_lucas_kanade_step_delegates harrisOne cImgSmall cImgSmall2 1
    rfl rfl (by decide)

set_option maxRecDepth 100000 in
/-- C5 witness: the corner branch on a concrete 4×4 pair with
`window_size = 1` and a constant-response Harris stand-in, at the selected
pixel `(1, 1)`. -/
theorem faster_lucas_kanade_step_corners_witness :
    (faster_lucas_kanade_step harrisOne cImgA cImgA2 1).1.data 1 1 =
      cornerDu cImgA cImgA2 1 1 1 ∧
    (faster_lucas_kanade_step harrisOne cImgA cImgA2 1).2.data 1 1 =
      cornerDv cImgA cImgA2 1 1 1 := by
  have hsel : imgMax (harrisOne cImgA2) / 100 < (harrisOne cImgA2).data 1 1 := by
    have h1 : imgMax (harrisOne cImgA2) = 1 := by decide
    have h2 : (harrisOne cImgA2).data 1 1 = 1 := rfl
    rw [h1, h2]
    norm_num
  exact (faster_lucas_kanade_step_corners harrisOne cImgA cImgA2 1 rfl rfl
    rfl rfl (by decide) 1 1 (by decide) (by decide)).1 hsel

/-- C6 counterexample: on a concrete 5×5 input with `num_levels = 1` the
returned flow field has shape 6×6, not the 5×5 resolution of `I1` that the
claim promises. -/
theorem lucas_kanade_optical_flow_shape_cex :
    (lucas_kanade_optical_flow resizeConst interpHole cImg55 cImg55 1 0
        1).map (fun uv => (uv.1.h, uv.1.w)) = some (6, 6) ∧
    (cImg55.h, cImg55.w) = (5, 5) := by
  constructor
  · rfl
  · rfl

/-- C6 witness: the amended shape statement applied on a concrete 4×4 pair
(already a multiple of `2 ^ 1`), with a shape-respecting resize stand-in. -/
theorem lucas_kanade_optical_flow_shape_witness :
    (lucas_kanade_optical_flow resizeConst interpExact cImgA cImgA2 5 1
        1).map (fun uv => (uv.1.h, uv.1.w, uv.2.h, uv.2.w)) =
      some (4, 4, 4, 4) := by
  obtain ⟨uv, he, h1, h2, h3, h4⟩ := lucas_kanade_optical_flow_shape
    resizeConst interpExact cImgA cImgA2 5 1 1
    (fun img W H => ⟨rfl, rfl⟩) rfl rfl (by decide)
  rw [he]
  show some (uv.1.h, uv.1.w, uv.2.h, uv.2.w) = some (4, 4, 4, 4)
  rw [h1, h2, h3, h4]
  decide

/-- C7 witness: shape preservation and hole filling with an
always-hole interpolation stand-in, at output pixel `(0, 0)`. -/
theorem warp_image_shape_and_holes_witness :
    (warp_image resizeConst interpHole cImgA cImgSmall cImgSmall2).h =
      cImgA.h ∧
    (warp_image resizeConst interpHole cImgA cImgSmall cImgSmall2).w =
      cImgA.w ∧
    (warp_image resizeConst interpHole cImgA cImgSmall cImgSmall2).data 0 0 =
      cImgA.data 0 0 := by
  obtain ⟨a, b, c⟩ := warp_image_shape_and_holes resizeConst interpHole
    cImgA cImgSmall cImgSmall2
  exact ⟨a, b, c 0 0 rfl⟩

/-- C8 witness: zero-displacement warping on a concrete image, with the
resize stand-in (which sends the zero field to a zero field) and the exact
interpolation stand-in, sampled at pixel `(1, 2)`. -/
theorem warp_image_zero_identity_witness :
    (warp_image resizeConst interpExact cImgA zImg zImg).h = cImgA.h ∧
    (warp_image resizeConst interpExact cImgA zImg zImg).w = cImgA.w ∧
    (warp_image resizeConst interpExact cImgA zImg zImg).data 1 2 =
      cImgA.data 1 2 := by
  obtain ⟨a, b, c⟩ := warp_image_zero_identity resizeConst interpExact
    cImgA zImg zImg (fun _ _ => rfl) (fun _ _ => rfl)
    (fun i j x hx => (Option.some.inj hx).symm)
  exact ⟨a, b, c 1 2⟩

/-- C9 witness: the accumulation step on concrete 4×4 grids with
`window_size = 3`, sampled at the border pixel `(0, 0)` and the interior
pixel `(1, 1)`. -/
theorem stabilizationAccumulate_spec_witness :
    (stabilizationAccumulate cImgA cImgA2 cImgA2 cImgA 3).1.h = cImgA.h ∧
    (stabilizationAccumulate cImgA cImgA2 cImgA2 cImgA 3).1.data 0 0 =
      cImgA.data 0 0 ∧
    (stabilizationAccumulate cImgA cImgA2 cImgA2 cImgA 3).1.data 1 1 =
      cImgA.data 1 1 + interiorMean cImgA2 3 := by
  obtain ⟨hs, hbu, hbv, hiu, hiv⟩ := stabilizationAccumulate_spec
    cImgA cImgA2 cImgA2 cImgA 3 rfl rfl rfl rfl
  exact ⟨hs.1, hbu 0 0 (Or.inl (by decide)),
    hiu 1 1 (by decide) (by decide) (by decide) (by decide)⟩

end LK
